import Mathlib

/-!
A shallow embedding of the evaluation core of the nushell excerpt:
the `insert` filter command (crates/nu-command/src/filters/insert.rs),
and the scoping / recursion behaviour exercised by
src/tests/test_custom_commands.rs.

Code present in src/ (the `insert` function's dispatch, its row-splice
loop, its per-element closure loop) is translated directly.  Engine
pieces that the excerpt only calls into (`PipelineData::map` with a
ctrl-c signal, `Stack::with_env`, `Value::insert_data_at_cell_path`,
`eval_block`, the recursion guard of `eval_call`) live outside the
excerpt; those are modelled from the spec, each marked
`Modelled from the spec:` in its doc comment.
-/

namespace NuCore

/-- Error payloads.  Mirrors the `ShellError` cases the spec's taxonomy
(§7) names for the excerpt; `outOfFuel` is an artifact of the fuelled
evaluator, never produced by a run given sufficient fuel. -/
inductive ShellError where
  | variableNotFound (name : String)
  | commandNotFound (name : String)
  | recursionLimitExceeded (limit : Nat)
  | typeMismatch (msg : String)
  | columnAlreadyExists (key : String)
  | columnNotFound (key : String)
  | indexOutOfBounds (idx : Nat)
  | incompatibleType
  | evalError (msg : String)
  | outOfFuel
deriving DecidableEq, Repr

/-- The tagged-union data model (`nu_protocol::Value`), restricted to the
variants the excerpt's claims exercise.  A record is an ordered list of
key/value pairs with unique keys; `closure` is a reference to a block
(what `Value::as_block` succeeds on); `error` carries a failure as a
first-class value. -/
inductive Value where
  | nothing
  | bool (b : Bool)
  | int (i : Int)
  | str (s : String)
  | list (vals : List Value)
  | record (fields : List (String × Value))
  | closure (blockId : Nat)
  | error (e : ShellError)

/-- One segment of a `CellPath` (`nu_protocol::ast::PathMember`):
`Int { val: usize }` addresses a list element, `String { val }` a record
field. -/
inductive PathMember where
  | int (val : Nat)
  | string (val : String)
deriving DecidableEq, Repr

/-- `nu_protocol::ast::CellPath`: an ordered sequence of path members. -/
structure CellPath where
  members : List PathMember
deriving DecidableEq, Repr

/-- Pipeline metadata is opaque to the core and propagated verbatim
(spec §3); a string tag models it. -/
abbrev Metadata := String

/-- `nu_protocol::PipelineData`, modelled as the ordered sequence of
values it produces plus its optional out-of-band metadata (spec §3). -/
structure PipelineData where
  values : List Value
  metadata : Option Metadata

/-- `Value::as_block().is_ok()`: the test `insert` uses to decide
between its per-element closure path and its literal paths. -/
def Value.isBlock : Value → Bool
  | .closure _ => true
  | _ => false

/-- `Value::error e` test. -/
def Value.isError : Value → Bool
  | .error _ => true
  | _ => false

/-- The prefix-materialising loop of `insert`'s row path
(insert.rs lines 179-187): pull `n` elements from the input iterator,
pushing `Value::nothing` for each missing one. -/
def prePad (n : Nat) (xs : List Value) : List Value :=
  match n, xs with
  | 0, _ => []
  | n + 1, [] => Value.nothing :: prePad n []
  | n + 1, x :: xs => x :: prePad n xs

/-- `insert`'s row path result (insert.rs lines 177-193): the padded
prefix, then the replacement, then the rest of the input iterator
(`pre_elems.chain([replacement]).chain(input)`). -/
def rowInsert (n : Nat) (replacement : Value) (xs : List Value) : List Value :=
  prePad n xs ++ replacement :: xs.drop n

/-- Replace the value bound to key `k` in a record's field list. -/
def setField : List (String × Value) → String → Value → List (String × Value)
  | [], k, v => [(k, v)]
  | (k', v') :: rest, k, v =>
      if k' = k then (k, v) :: rest else (k', v') :: setField rest k v

/-- Modelled from the spec: `Value::insert_data_at_cell_path`
(nu-protocol, not part of the excerpt), following §4.1's `insert_at`
contract: insertion is additive-only (an already-present terminal
segment fails with `ColumnAlreadyExists`), a missing intermediate
segment is not auto-created (`ColumnNotFound` / `IndexOutOfBounds`),
and addressing through a non-container fails with
`IncompatibleType`. -/
def insertAt (v : Value) (members : List PathMember) (newVal : Value) :
    Except ShellError Value :=
  match members, v with
  | [], _ => .error .incompatibleType
  | [.string k], .record fields =>
      if (fields.lookup k).isSome then .error (.columnAlreadyExists k)
      else .ok (.record (fields ++ [(k, newVal)]))
  | [.int i], .list vals =>
      if i = vals.length then .ok (.list (vals ++ [newVal]))
      else if i < vals.length then .error (.columnAlreadyExists (toString i))
      else .error (.indexOutOfBounds i)
  | .string k :: rest, .record fields =>
      match fields.lookup k with
      | some inner =>
          match insertAt inner rest newVal with
          | .ok inner' => .ok (.record (setField fields k inner'))
          | .error e => .error e
      | none => .error (.columnNotFound k)
  | .int i :: rest, .list vals =>
      match vals[i]? with
      | some inner =>
          match insertAt inner rest newVal with
          | .ok inner' => .ok (.list (vals.set i inner'))
          | .error e => .error e
      | none => .error (.indexOutOfBounds i)
  | _, _ => .error .incompatibleType

/-- Modelled from the spec: `PipelineData::map(transform, ctrlc)` over a
stream (nu-protocol, not part of the excerpt), per §4.2/§5: the shared
cancellation signal is polled before producing each transformed element;
if set, iteration stops immediately and nothing further is produced or
consumed.  `signal i` is the signal's value at the poll that precedes
element `i`. -/
def mapWithSignal (signal : Nat → Bool) (f : Value → Value) :
    Nat → List Value → List Value
  | _, [] => []
  | i, x :: xs =>
      if signal i then [] else f x :: mapWithSignal signal f (i + 1) xs

/-- Environment-variable mapping of a `Stack` (`stack.env_vars`). -/
abbrev Env := List (String × Value)

/-- The behaviour of `eval_block` on the closure body for one element:
from the environment at entry and the driving element, the body yields a
result (or fails) and leaves the stack's environment possibly mutated.
`eval_block` is engine code outside the excerpt, so the loop below is
quantified over it. -/
abbrev BodyEval := Env → Value → Except ShellError Value × Env

/-- The per-element output of `insert`'s closure path (insert.rs lines
157-171): on success of the body, its value is written at the cell path
into the element; if the body failed, or the write fails, the element is
replaced by an error-variant value. -/
def insertElemResult (members : List PathMember) (input : Value)
    (output : Except ShellError Value) : Value :=
  match output with
  | .ok out =>
      match insertAt input members out with
      | .ok v => v
      | .error e => .error e
  | .error e => .error e

/-- The iteration of `insert`'s closure path (insert.rs lines 133-174):
`input.map(transform, ctrlc)` polls the cancellation signal before each
element (modelled from the spec §5); each iteration first resets the
stack's environment to the snapshot taken before the loop
(`stack.with_env(&orig_env_vars, &orig_env_hidden)`, modelled from the
spec §4.3 step 2), binds the element, evaluates the body, and emits the
element's output.  The list holds, per produced element, the environment
the body saw and the output value; the environment the body left behind
threads on to the next iteration (the `move` closure owns the stack). -/
def closureLoop (evalBody : BodyEval) (members : List PathMember)
    (origEnv : Env) (signal : Nat → Bool) :
    Env → Nat → List Value → List (Env × Value)
  | _, _, [] => []
  | _env, i, x :: xs =>
      if signal i then []
      else
        (origEnv, insertElemResult members x (evalBody origEnv x).1) ::
          closureLoop evalBody members origEnv signal (evalBody origEnv x).2
            (i + 1) xs

/-- The body of `insert` (insert.rs lines 106-212).  The two positional
arguments (`cell_path`, `replacement`) have already been extracted by
`call.req`; `evalBody` stands for `eval_block` on the replacement's
block; `origEnv` is the environment of the stack the closure loop clones
its snapshot from; `signal` is the engine's ctrl-c signal.  The row path
(lines 177-193) materialises its padded prefix eagerly and returns the
chained stream; the two map paths re-assert the input's metadata via
`set_metadata`, the row path passes it to
`into_pipeline_data_with_metadata`. -/
def runInsert (evalBody : BodyEval) (signal : Nat → Bool)
    (cellPath : CellPath) (replacement : Value) (origEnv : Env)
    (input : PipelineData) : PipelineData :=
  let metadata := input.metadata
  if replacement.isBlock then
    { values :=
        (closureLoop evalBody cellPath.members origEnv signal origEnv 0
          input.values).map Prod.snd
      metadata := metadata }
  else
    match cellPath.members.head? with
    | some (.int n) =>
        { values := rowInsert n replacement input.values
          metadata := metadata }
    | _ =>
        { values :=
            mapWithSignal signal
              (fun v => insertElemResult cellPath.members v (.ok replacement))
              0 input.values
          metadata := metadata }

/-- An expression of the user language, as the core receives it: already
parsed and resolved (spec §1, §6).  Only the forms the scoping and
recursion test suite exercises are needed. -/
inductive Expr where
  | lit (v : Value)
  | var (name : String)
  | letVar (name : String) (rhs : Expr) (rest : Expr)
  | add (a b : Expr)
  | call (cmd : String) (args : List Expr)

/-- A user-defined command as the core receives it: declared positional
parameters, the capture set computed at definition time (spec §3
"Closure", §6: the parser supplies the already-computed capture set),
and a body. -/
structure CmdDef where
  params : List String
  captures : List (String × Value)
  body : Expr

/-- The resolved command registry (spec §9: a mapping name to
implementation). -/
structure Engine where
  decls : List (String × CmdDef)

/-- The fixed recursion ceiling (`RECURSION_LIMIT` in nu-protocol); the
test suite's `infinite_recursion_does_not_panic` pins it at 50. -/
def RECURSION_LIMIT : Nat := 50

/-- Variable bindings of one scope. -/
abbrev Scope := List (String × Value)

mutual

/-- Modelled from the spec: the scoping and invocation engine
(`eval_block` / `eval_call` in nu-engine, not part of the excerpt),
per §3 "Stack"/"Closure", §4.3 and §4.4.  `fuel` bounds evaluation depth
so the function is total; `outOfFuel` is never returned given enough
fuel.  `depth` is the shared call-depth counter: it is incremented on
entering a user command's body, and if it would exceed the ceiling the
guard fails with `recursionLimitExceeded` before the body is entered
(§4.4).  Inside a command's body only its declared parameters, bound to
the evaluated arguments, and its capture set are visible (§3). -/
def evalExpr (eng : Engine) : Nat → Scope → Nat → Expr → Except ShellError Value
  | 0, _, _, _ => .error .outOfFuel
  | fuel + 1, scope, depth, e =>
    match e with
    | .lit v => .ok v
    | .var n =>
        match scope.lookup n with
        | some v => .ok v
        | none => .error (.variableNotFound n)
    | .letVar n rhs rest =>
        match evalExpr eng fuel scope depth rhs with
        | .ok v => evalExpr eng fuel ((n, v) :: scope) depth rest
        | .error e => .error e
    | .add a b =>
        match evalExpr eng fuel scope depth a,
              evalExpr eng fuel scope depth b with
        | .ok (.int x), .ok (.int y) => .ok (.int (x + y))
        | .error e, _ => .error e
        | _, .error e => .error e
        | _, _ => .error (.typeMismatch "addition needs integers")
    | .call name args =>
        match eng.decls.lookup name with
        | none => .error (.commandNotFound name)
        | some cmd =>
            if RECURSION_LIMIT < depth + 1 then
              .error (.recursionLimitExceeded RECURSION_LIMIT)
            else
              match evalArgs eng fuel scope depth args with
              | .ok argVals =>
                  evalExpr eng fuel (cmd.params.zip argVals ++ cmd.captures)
                    (depth + 1) cmd.body
              | .error e => .error e

/-- Evaluate a call's argument expressions left to right in the caller's
scope (spec §4.4: arguments are resolved against the signature before
the body runs). -/
def evalArgs (eng : Engine) :
    Nat → Scope → Nat → List Expr → Except ShellError (List Value)
  | 0, _, _, _ => .error .outOfFuel
  | _fuel + 1, _, _, [] => .ok []
  | fuel + 1, scope, depth, a :: rest =>
      match evalExpr eng fuel scope depth a with
      | .ok v =>
          match evalArgs eng fuel scope depth rest with
          | .ok vs => .ok (v :: vs)
          | .error e => .error e
      | .error e => .error e

end

/-- A resolved program: its command definitions and a main expression. -/
structure Program where
  decls : List (String × CmdDef)
  main : Expr

/-- Run a program from an empty scope at call depth 0. -/
def evalProgram (p : Program) (fuel : Nat) : Except ShellError Value :=
  evalExpr ⟨p.decls⟩ fuel [] 0 p.main

/-- `def bang [] { bang }; bang`, the program of the test
`infinite_recursion_does_not_panic`, for an arbitrary command name. -/
def selfCallProgram (name : String) : Program :=
  { decls := [(name, { params := [], captures := [], body := .call name [] })]
    main := .call name [] }

/-- `def foo [] { $x }; def bar [] { let $x = v; foo }; bar`, the
program of the test `no_scope_leak2`, for an arbitrary bound value `v`
(the test uses 10).  Neither definition captures anything: no variable
is in scope where they are defined. -/
def scopeLeakProgram (v : Value) : Program :=
  { decls :=
      [ ("foo", { params := [], captures := [], body := .var "x" })
      , ("bar", { params := [], captures := []
                  body := .letVar "x" (.lit v) (.call "foo" []) }) ]
    main := .call "bar" [] }

/-- `def foo [$x] { $x }; def bar [] { let $x = b; (foo a) + $x }; bar`,
the program of the test `no_scope_leak4`, for arbitrary integers `a`,
`b` (the test uses 20 and 10). -/
def paramAliasProgram (a b : Int) : Program :=
  { decls :=
      [ ("foo", { params := ["x"], captures := [], body := .var "x" })
      , ("bar", { params := [], captures := []
                  body := .letVar "x" (.lit (.int b))
                    (.add (.call "foo" [.lit (.int a)]) (.var "x")) }) ]
    main := .call "bar" [] }

/-! ## Helper lemmas -/

theorem prePad_eq (n : Nat) (xs : List Value) :
    prePad n xs = xs.take n ++ List.replicate (n - xs.length) Value.nothing := by
  induction n generalizing xs with
  | zero => simp [prePad]
  | succ n ih =>
    cases xs with
    | nil => simp [prePad, ih, List.replicate_succ]
    | cons x xs => simp [prePad, ih]

theorem prePad_length (n : Nat) (xs : List Value) :
    (prePad n xs).length = n := by
  rw [prePad_eq]
  simp
  omega

theorem rowInsert_getElem_target (n : Nat) (r : Value) (xs : List Value) :
    (rowInsert n r xs)[n]? = some r := by
  unfold rowInsert
  rw [List.getElem?_append_right (by rw [prePad_length])]
  rw [prePad_length]
  simp

theorem rowInsert_drop_tail (n : Nat) (r : Value) (xs : List Value) :
    (rowInsert n r xs).drop (n + 1) = xs.drop n := by
  unfold rowInsert
  rw [show prePad n xs ++ r :: xs.drop n
      = (prePad n xs ++ [r]) ++ xs.drop n by simp]
  exact List.drop_left' (by simp [prePad_length])

theorem runInsert_row_eq (evalBody : BodyEval) (signal : Nat → Bool) (n : Nat)
    (rest : List PathMember) (replacement : Value) (origEnv : Env)
    (input : PipelineData) (h : replacement.isBlock = false) :
    runInsert evalBody signal ⟨.int n :: rest⟩ replacement origEnv input =
      { values := rowInsert n replacement input.values
        metadata := input.metadata } := by
  simp [runInsert, h]

theorem runInsert_closure_eq (evalBody : BodyEval) (signal : Nat → Bool)
    (cellPath : CellPath) (replacement : Value) (origEnv : Env)
    (input : PipelineData) (h : replacement.isBlock = true) :
    runInsert evalBody signal cellPath replacement origEnv input =
      { values :=
          (closureLoop evalBody cellPath.members origEnv signal origEnv 0
            input.values).map Prod.snd
        metadata := input.metadata } := by
  simp [runInsert, h]

theorem closureLoop_no_signal (evalBody : BodyEval) (members : List PathMember)
    (origEnv : Env) :
    ∀ (xs : List Value) (env0 : Env) (i : Nat),
      closureLoop evalBody members origEnv (fun _ => false) env0 i xs =
        xs.map fun x =>
          (origEnv, insertElemResult members x (evalBody origEnv x).1) := by
  intro xs
  induction xs with
  | nil => intro env0 i; rfl
  | cons x xs ih => intro env0 i; simp [closureLoop, ih]

theorem closureLoop_env_mem (evalBody : BodyEval) (members : List PathMember)
    (origEnv : Env) (signal : Nat → Bool) :
    ∀ (xs : List Value) (env0 : Env) (i : Nat) (p : Env × Value),
      p ∈ closureLoop evalBody members origEnv signal env0 i xs →
      p.1 = origEnv := by
  intro xs
  induction xs with
  | nil => intro env0 i p hp; simp [closureLoop] at hp
  | cons x xs ih =>
    intro env0 i p hp
    by_cases hs : signal i
    · simp [closureLoop, hs] at hp
    · simp only [closureLoop, hs, Bool.false_eq_true, if_false,
        List.mem_cons] at hp
      rcases hp with h1 | h2
      · rw [h1]
      · exact ih _ _ p h2

theorem closureLoop_cancel (evalBody : BodyEval) (members : List PathMember)
    (origEnv : Env) (signal : Nat → Bool) :
    ∀ (xs : List Value) (k i : Nat) (env0 : Env),
      (∀ j, j < k → signal (i + j) = false) → signal (i + k) = true →
      closureLoop evalBody members origEnv signal env0 i xs =
        (xs.take k).map fun x =>
          (origEnv, insertElemResult members x (evalBody origEnv x).1) := by
  intro xs
  induction xs with
  | nil => intro k i env0 _ _; simp [closureLoop]
  | cons x xs ih =>
    intro k i env0 hb ha
    cases k with
    | zero =>
      have h0 : signal i = true := by simpa using ha
      simp [closureLoop, h0]
    | succ k =>
      have h0 : signal i = false := by simpa using hb 0 (Nat.succ_pos k)
      simp only [closureLoop, h0, Bool.false_eq_true, if_false,
        List.take_succ_cons, List.map_cons]
      refine congrArg _ (ih k (i + 1) _ ?_ ?_)
      · intro j hj
        have := hb (j + 1) (by omega)
        rwa [show i + (j + 1) = i + 1 + j by omega] at this
      · rwa [show i + 1 + k = i + (k + 1) by omega]

theorem mapWithSignal_cancel (signal : Nat → Bool) (f : Value → Value) :
    ∀ (xs : List Value) (k i : Nat),
      (∀ j, j < k → signal (i + j) = false) → signal (i + k) = true →
      mapWithSignal signal f i xs = (xs.take k).map f := by
  intro xs
  induction xs with
  | nil => intro k i _ _; simp [mapWithSignal]
  | cons x xs ih =>
    intro k i hb ha
    cases k with
    | zero =>
      have h0 : signal i = true := by simpa using ha
      simp [mapWithSignal, h0]
    | succ k =>
      have h0 : signal i = false := by simpa using hb 0 (Nat.succ_pos k)
      simp only [mapWithSignal, h0, Bool.false_eq_true, if_false,
        List.take_succ_cons, List.map_cons]
      refine congrArg _ (ih k (i + 1) ?_ ?_)
      · intro j hj
        have := hb (j + 1) (by omega)
        rwa [show i + (j + 1) = i + 1 + j by omega] at this
      · rwa [show i + 1 + k = i + (k + 1) by omega]

theorem selfCall_spin (name : String) :
    ∀ (fuel depth : Nat) (scope : Scope), depth ≤ RECURSION_LIMIT →
      RECURSION_LIMIT + 1 ≤ depth + fuel →
      evalExpr ⟨[(name, ⟨[], [], .call name []⟩)]⟩ fuel scope depth
        (.call name []) =
        .error (.recursionLimitExceeded RECURSION_LIMIT) := by
  intro fuel
  induction fuel with
  | zero =>
    intro depth scope h1 h2
    exfalso
    simp [RECURSION_LIMIT] at h1 h2
    omega
  | succ f ih =>
    intro depth scope h1 h2
    rw [evalExpr]
    simp only [List.lookup, beq_self_eq_true]
    by_cases hg : RECURSION_LIMIT < depth + 1
    · simp [hg]
    · simp only [hg, if_false]
      have hf : 1 ≤ f := by simp [RECURSION_LIMIT] at hg h2; omega
      obtain ⟨f', rfl⟩ : ∃ f', f = f' + 1 := ⟨f - 1, by omega⟩
      rw [evalArgs]
      simp only [List.zip_nil_right, List.nil_append]
      exact ih (depth + 1) _ (by omega) (by omega)

/-! ## Claim theorems -/

/-- Claim C2: with a non-closure replacement and a cell path whose first
member is `Int n`, `insert` materialises exactly the first `n` input
elements, padding each missing position with `Nothing`; the replacement
sits at position `n` with no present element overwritten (the input's
elements formerly at index at least `n` follow after it), and the tail
of the input continues unchanged after the replacement. -/
theorem row_insert_pads_and_splices (evalBody : BodyEval) (signal : Nat → Bool)
    (n : Nat) (rest : List PathMember) (replacement : Value) (origEnv : Env)
    (input : PipelineData) (h : replacement.isBlock = false) :
    (runInsert evalBody signal ⟨.int n :: rest⟩ replacement origEnv input).values =
      input.values.take n
        ++ List.replicate (n - input.values.length) Value.nothing
        ++ replacement :: input.values.drop n ∧
    (runInsert evalBody signal ⟨.int n :: rest⟩ replacement origEnv
        input).values[n]? = some replacement ∧
    (runInsert evalBody signal ⟨.int n :: rest⟩ replacement origEnv
        input).values.drop (n + 1) = input.values.drop n := by
  rw [runInsert_row_eq evalBody signal n rest replacement origEnv input h]
  refine ⟨?_, rowInsert_getElem_target n replacement input.values,
    rowInsert_drop_tail n replacement input.values⟩
  unfold rowInsert
  rw [prePad_eq, List.append_assoc]

/-- Claim C2 witness: a concrete run: inserting `7` at index `4` of the
two-element input `[0, 1]` pads positions 2 and 3 with `Nothing` and
appends `7`. -/
theorem row_insert_pads_and_splices_witness :
    (Value.int 7).isBlock = false ∧
    ((runInsert (fun env v => (.ok v, env)) (fun _ => false)
        ⟨[.int 4, .string "k"]⟩ (.int 7) []
        ⟨[.int 0, .int 1], some "meta"⟩).values =
      [Value.int 0, Value.int 1].take 4
        ++ List.replicate (4 - [Value.int 0, Value.int 1].length) Value.nothing
        ++ Value.int 7 :: [Value.int 0, Value.int 1].drop 4 ∧
    (runInsert (fun env v => (.ok v, env)) (fun _ => false)
        ⟨[.int 4, .string "k"]⟩ (.int 7) []
        ⟨[.int 0, .int 1], some "meta"⟩).values[4]? = some (Value.int 7) ∧
    (runInsert (fun env v => (.ok v, env)) (fun _ => false)
        ⟨[.int 4, .string "k"]⟩ (.int 7) []
        ⟨[.int 0, .int 1], some "meta"⟩).values.drop (4 + 1) =
      [Value.int 0, Value.int 1].drop 4) :=
  ⟨rfl, row_insert_pads_and_splices (fun env v => (.ok v, env)) (fun _ => false)
    4 [.string "k"] (.int 7) [] ⟨[.int 0, .int 1], some "meta"⟩ rfl⟩

/-- Claim C6: every output `PipelineData` produced by `insert` — the
closure path, the row-padding path, and the literal per-element path
alike — carries the same metadata as its input. -/
theorem insert_preserves_metadata (evalBody : BodyEval) (signal : Nat → Bool)
    (cellPath : CellPath) (replacement : Value) (origEnv : Env)
    (input : PipelineData) :
    (runInsert evalBody signal cellPath replacement origEnv input).metadata =
      input.metadata := by
  unfold runInsert
  split
  · rfl
  · split <;> rfl

/-- Claim C7: binding a callee's declared positional parameter does not
alias or overwrite a caller-scope variable of the same name:
`def foo [$x] { $x }; def bar [] { let $x = b; (foo a) + $x }; bar`
evaluates to `a + b` — `foo`'s `x` is bound to the argument while
`bar`'s `x` keeps its own value after the call (the test uses `a = 20`,
`b = 10` and expects `30`). -/
theorem param_binding_does_not_alias (a b : Int) :
    evalProgram (paramAliasProgram a b) 10 = .ok (.int (a + b)) := rfl

/-- Claim C9: whenever the replacement argument is a closure, `insert`
takes the per-element path — evaluating the closure per element and
writing its result through `insert_data_at_cell_path` — for every cell
path, including one whose first member is an integer index; the
row-splice path is reachable only for non-closure replacements. -/
theorem closure_replacement_per_element_path (evalBody : BodyEval)
    (signal : Nat → Bool) (cellPath : CellPath) (replacement : Value)
    (origEnv : Env) (input : PipelineData) (h : replacement.isBlock = true) :
    runInsert evalBody signal cellPath replacement origEnv input =
      { values :=
          (closureLoop evalBody cellPath.members origEnv signal origEnv 0
            input.values).map Prod.snd
        metadata := input.metadata } :=
  runInsert_closure_eq evalBody signal cellPath replacement origEnv input h

/-- Claim C9 witness: a closure replacement with an `Int`-first cell
path still goes through the per-element closure loop. -/
theorem closure_replacement_per_element_path_witness :
    (Value.closure 3).isBlock = true ∧
    runInsert (fun env v => (.ok v, env)) (fun _ => false) ⟨[.int 0]⟩
        (.closure 3) [] ⟨[.int 5], none⟩ =
      { values :=
          (closureLoop (fun env v => (.ok v, env)) [.int 0] []
            (fun _ => false) [] 0 [.int 5]).map Prod.snd
        metadata := none } :=
  ⟨rfl, closure_replacement_per_element_path (fun env v => (.ok v, env))
    (fun _ => false) ⟨[.int 0]⟩ (.closure 3) [] ⟨[.int 5], none⟩ rfl⟩

/-- Claim C10: with a non-closure replacement and an `Int n` first
member, every path member after the first is ignored: the replacement is
spliced whole at top-level position `n` (the row-splice result, no
error), and the output does not depend on the trailing members. -/
theorem row_insert_ignores_trailing_members (evalBody : BodyEval)
    (signal : Nat → Bool) (n : Nat) (rest rest' : List PathMember)
    (replacement : Value) (origEnv : Env) (input : PipelineData)
    (h : replacement.isBlock = false) :
    runInsert evalBody signal ⟨.int n :: rest⟩ replacement origEnv input =
      { values := rowInsert n replacement input.values
        metadata := input.metadata } ∧
    runInsert evalBody signal ⟨.int n :: rest⟩ replacement origEnv input =
      runInsert evalBody signal ⟨.int n :: rest'⟩ replacement origEnv input := by
  rw [runInsert_row_eq evalBody signal n rest replacement origEnv input h,
    runInsert_row_eq evalBody signal n rest' replacement origEnv input h]
  exact ⟨rfl, rfl⟩

/-- Claim C10 witness: splicing `7` at index `1` of `[0, 1]` under the
paths `[1, "k"]` and `[1]` gives the same row-splice output. -/
theorem row_insert_ignores_trailing_members_witness :
    (Value.int 7).isBlock = false ∧
    (runInsert (fun env v => (.ok v, env)) (fun _ => false)
        ⟨[.int 1, .string "k"]⟩ (.int 7) [] ⟨[.int 0, .int 1], none⟩ =
      { values := rowInsert 1 (.int 7) [.int 0, .int 1]
        metadata := none } ∧
    runInsert (fun env v => (.ok v, env)) (fun _ => false)
        ⟨[.int 1, .string "k"]⟩ (.int 7) [] ⟨[.int 0, .int 1], none⟩ =
      runInsert (fun env v => (.ok v, env)) (fun _ => false)
        ⟨[.int 1]⟩ (.int 7) [] ⟨[.int 0, .int 1], none⟩) :=
  ⟨rfl, row_insert_ignores_trailing_members (fun env v => (.ok v, env))
    (fun _ => false) 1 [.string "k"] [] (.int 7) [] ⟨[.int 0, .int 1], none⟩ rfl⟩

/-- Claim C3: in `insert`'s per-element closure path (cancellation
signal unset), a per-element failure — the body failing, or the write
through `insert_data_at_cell_path` failing — puts an error-variant
value at exactly that element's position, and the stream continues:
every element, before and after the failing one, is still produced from
its own input as usual. -/
theorem closure_failure_error_in_place (evalBody : BodyEval)
    (members : List PathMember) (origEnv env0 : Env) (xs : List Value)
    (k : Nat) (e : ShellError) (w : Value) (hk : k < xs.length)
    (hfail : (evalBody origEnv xs[k]).1 = .error e ∨
      ((evalBody origEnv xs[k]).1 = .ok w ∧ insertAt xs[k] members w = .error e)) :
    ((closureLoop evalBody members origEnv (fun _ => false) env0 0 xs).map
        Prod.snd)[k]? = some (Value.error e) ∧
    ((closureLoop evalBody members origEnv (fun _ => false) env0 0 xs).map
        Prod.snd).length = xs.length ∧
    ∀ j, (hj : j < xs.length) →
      ((closureLoop evalBody members origEnv (fun _ => false) env0 0 xs).map
          Prod.snd)[j]? =
        some (insertElemResult members xs[j] (evalBody origEnv xs[j]).1) := by
  rw [closureLoop_no_signal, List.map_map]
  have hmap : xs.map (Prod.snd ∘ fun x =>
      (origEnv, insertElemResult members x (evalBody origEnv x).1)) =
      xs.map fun x => insertElemResult members x (evalBody origEnv x).1 := rfl
  rw [hmap]
  refine ⟨?_, by simp, ?_⟩
  · rw [List.getElem?_map, List.getElem?_eq_getElem hk]
    rcases hfail with h | ⟨h1, h2⟩
    · simp [insertElemResult, h]
    · simp [insertElemResult, h1, h2]
  · intro j hj
    rw [List.getElem?_map, List.getElem?_eq_getElem hj]
    rfl

/-- Claim C3 witness: over three records, inserting at path `"a"` with a
closure producing `9` fails only at the middle element (whose field `"a"`
already exists): position 1 holds an error value, positions 0 and 2 the
normally transformed records. -/
theorem closure_failure_error_in_place_witness :
    (1 < [Value.record [("b", .int 1)], Value.record [("a", .int 1)],
        Value.record [("c", .int 2)]].length) ∧
    (insertAt (Value.record [("a", .int 1)]) [.string "a"] (.int 9) =
      .error (.columnAlreadyExists "a")) ∧
    (((closureLoop (fun env _ => (.ok (.int 9), env)) [.string "a"] []
        (fun _ => false) [] 0
        [Value.record [("b", .int 1)], Value.record [("a", .int 1)],
          Value.record [("c", .int 2)]]).map Prod.snd)[1]? =
      some (Value.error (.columnAlreadyExists "a")) ∧
    ((closureLoop (fun env _ => (.ok (.int 9), env)) [.string "a"] []
        (fun _ => false) [] 0
        [Value.record [("b", .int 1)], Value.record [("a", .int 1)],
          Value.record [("c", .int 2)]]).map Prod.snd).length =
      [Value.record [("b", .int 1)], Value.record [("a", .int 1)],
        Value.record [("c", .int 2)]].length ∧
    ∀ j, (hj : j < [Value.record [("b", .int 1)], Value.record [("a", .int 1)],
        Value.record [("c", .int 2)]].length) →
      (((closureLoop (fun env _ => (.ok (.int 9), env)) [.string "a"] []
          (fun _ => false) [] 0
          [Value.record [("b", .int 1)], Value.record [("a", .int 1)],
            Value.record [("c", .int 2)]]).map Prod.snd)[j]? =
        some (insertElemResult [.string "a"]
          [Value.record [("b", .int 1)], Value.record [("a", .int 1)],
            Value.record [("c", .int 2)]][j]
          ((fun (env : Env) (_ : Value) =>
            ((.ok (.int 9) : Except ShellError Value), env)) []
            [Value.record [("b", .int 1)], Value.record [("a", .int 1)],
              Value.record [("c", .int 2)]][j]).1))) :=
  ⟨by simp, rfl,
    closure_failure_error_in_place (fun env _ => (.ok (.int 9), env))
      [.string "a"] [] []
      [Value.record [("b", .int 1)], Value.record [("a", .int 1)],
        Value.record [("c", .int 2)]]
      1 (.columnAlreadyExists "a") (.int 9) (by simp) (Or.inr ⟨rfl, rfl⟩)⟩

/-- Claim C4: in `insert`'s closure path the environment the body sees
at every produced element (so in particular at element `k + 1`) equals
the snapshot taken at loop entry: an environment mutation the body made
while processing an earlier element — threaded through the loop state —
is never observable at the following element. -/
theorem closure_env_reset_per_iteration (evalBody : BodyEval)
    (members : List PathMember) (origEnv : Env) (signal : Nat → Bool)
    (env0 : Env) (xs : List Value) (k : Nat) (p : Env × Value)
    (hp : (closureLoop evalBody members origEnv signal env0 0 xs)[k]? = some p) :
    p.1 = origEnv :=
  closureLoop_env_mem evalBody members origEnv signal xs env0 0 p
    (List.getElem?_mem hp)

/-- Claim C4 witness: a body that prepends a `PWD` binding to the
environment at every element still sees the loop-entry snapshot at
element 1. -/
theorem closure_env_reset_per_iteration_witness :
    ((closureLoop (fun env v => (.ok v, ("PWD", Value.str "/tmp") :: env))
        [.string "a"] [("PWD", Value.str "/home")] (fun _ => false)
        [("PWD", Value.str "/home")] 0 [.int 1, .int 2])[1]? =
      some ([("PWD", Value.str "/home")], Value.error .incompatibleType)) ∧
    ([("PWD", Value.str "/home")],
      Value.error ShellError.incompatibleType).1 =
      [("PWD", Value.str "/home")] :=
  ⟨rfl, closure_env_reset_per_iteration
    (fun env v => (.ok v, ("PWD", Value.str "/tmp") :: env)) [.string "a"]
    [("PWD", Value.str "/home")] (fun _ => false)
    [("PWD", Value.str "/home")] [.int 1, .int 2] 1
    ([("PWD", Value.str "/home")], Value.error .incompatibleType) rfl⟩

/-- Claim C8: if the shared cancellation signal is unset at the polls
before elements `0..k-1` and set from the poll before element `k` on,
a map-style transformation yields exactly the first `k` transformed
elements — shown both for `insert`'s closure loop and for the engine's
signal-polling map — with no partial element, no retraction of
already-yielded elements, and no resumption. -/
theorem cancel_signal_stops_at_k (evalBody : BodyEval)
    (members : List PathMember) (origEnv env0 : Env) (signal : Nat → Bool)
    (f : Value → Value) (xs : List Value) (k : Nat)
    (hbefore : ∀ j, j < k → signal j = false) (hset : signal k = true) :
    (closureLoop evalBody members origEnv signal env0 0 xs).map Prod.snd =
      ((xs.take k).map fun x =>
        insertElemResult members x (evalBody origEnv x).1) ∧
    mapWithSignal signal f 0 xs = (xs.take k).map f := by
  constructor
  · rw [closureLoop_cancel evalBody members origEnv signal xs k 0 env0
      (by simpa using hbefore) (by simpa using hset), List.map_map]
    rfl
  · exact mapWithSignal_cancel signal f xs k 0 (by simpa using hbefore)
      (by simpa using hset)

/-- Claim C8 witness: a signal that turns on at poll 2 cuts a
three-element stream to its first two transformed elements. -/
theorem cancel_signal_stops_at_k_witness :
    (∀ j, j < 2 → (fun i => decide (2 ≤ i)) j = false) ∧
    ((fun i => decide (2 ≤ i)) 2 = true) ∧
    ((closureLoop (fun env v => (.ok v, env)) [.string "a"] []
        (fun i => decide (2 ≤ i)) [] 0
        [.int 1, .int 2, .int 3]).map Prod.snd =
      (([Value.int 1, Value.int 2, Value.int 3].take 2).map fun x =>
        insertElemResult [.string "a"] x
          ((fun (env : Env) (v : Value) =>
            ((.ok v : Except ShellError Value), env)) [] x).1) ∧
    mapWithSignal (fun i => decide (2 ≤ i)) (fun v => v) 0
        [.int 1, .int 2, .int 3] =
      ([Value.int 1, Value.int 2, Value.int 3].take 2).map fun v => v) :=
  ⟨by decide, by decide,
    cancel_signal_stops_at_k (fun env v => (.ok v, env)) [.string "a"]
      [] [] (fun i => decide (2 ≤ i)) (fun v => v)
      [.int 1, .int 2, .int 3] 2 (by decide) (by decide)⟩

/-- Claim C1: a user-defined command whose body unconditionally calls
itself terminates, for every sufficient fuel bound, with the ordinary
propagated error `recursionLimitExceeded` reporting the fixed ceiling of
50 nested user-command invocations: the guard fails before the body of
the offending 51st nested call is entered, so evaluation stops at that
depth instead of recursing without bound. -/
theorem recursion_guard_self_call (name : String) (fuel : Nat)
    (h : RECURSION_LIMIT + 1 ≤ fuel) :
    evalProgram (selfCallProgram name) fuel =
      .error (.recursionLimitExceeded RECURSION_LIMIT) := by
  unfold evalProgram selfCallProgram
  exact selfCall_spin name fuel 0 [] (Nat.zero_le _) (by omega)

/-- Claim C1 witness: `def bang [] { bang }; bang` with fuel 60 returns
the recursion-limit error with ceiling 50. -/
theorem recursion_guard_self_call_witness :
    (RECURSION_LIMIT + 1 ≤ 60) ∧
    evalProgram (selfCallProgram "bang") 60 =
      .error (.recursionLimitExceeded RECURSION_LIMIT) :=
  ⟨by decide, recursion_guard_self_call "bang" 60 (by decide)⟩

/-- Claim C5: inside the body of an invoked custom command only its
declared parameters — bound to the call's evaluated arguments — and its
explicit capture set are visible: the body is evaluated in exactly that
scope, with the caller's scope discarded; in particular
`def foo [] { $x }; def bar [] { let $x = v; foo }; bar` fails with
`variableNotFound "x"`, because `foo` does not see `bar`'s local `x`. -/
theorem command_scope_capture_only (eng : Engine) (fuel : Nat)
    (callerScope : Scope) (depth : Nat) (name : String) (args : List Expr)
    (cmd : CmdDef) (argVals : List Value) (v : Value)
    (hcmd : eng.decls.lookup name = some cmd)
    (hguard : depth + 1 ≤ RECURSION_LIMIT)
    (hargs : evalArgs eng fuel callerScope depth args = .ok argVals) :
    evalExpr eng (fuel + 1) callerScope depth (.call name args) =
      evalExpr eng fuel (cmd.params.zip argVals ++ cmd.captures) (depth + 1)
        cmd.body ∧
    evalProgram (scopeLeakProgram v) 10 = .error (.variableNotFound "x") := by
  refine ⟨?_, rfl⟩
  rw [evalExpr]
  have hng : ¬ (RECURSION_LIMIT < depth + 1) := by omega
  simp only [hcmd, hng, if_false, hargs]

/-- Claim C5 witness: calling `id 2` from a caller scope binding `z`
evaluates `id`'s body in the scope holding only its parameter `y`; and
the concrete `no_scope_leak2` program fails with `variableNotFound`. -/
theorem command_scope_capture_only_witness :
    ((⟨[("id", ⟨["y"], [], .var "y"⟩)]⟩ : Engine).decls.lookup "id" =
      some ⟨["y"], [], .var "y"⟩) ∧
    (0 + 1 ≤ RECURSION_LIMIT) ∧
    (evalArgs ⟨[("id", ⟨["y"], [], .var "y"⟩)]⟩ 5 [("z", .int 1)] 0
      [.lit (.int 2)] = .ok [.int 2]) ∧
    (evalExpr ⟨[("id", ⟨["y"], [], .var "y"⟩)]⟩ (5 + 1) [("z", .int 1)] 0
        (.call "id" [.lit (.int 2)]) =
      evalExpr ⟨[("id", ⟨["y"], [], .var "y"⟩)]⟩ 5
        ((⟨["y"], [], .var "y"⟩ : CmdDef).params.zip [.int 2] ++
          (⟨["y"], [], .var "y"⟩ : CmdDef).captures) (0 + 1)
        (⟨["y"], [], .var "y"⟩ : CmdDef).body ∧
    evalProgram (scopeLeakProgram (.int 10)) 10 =
      .error (.variableNotFound "x")) :=
  ⟨rfl, by decide, rfl,
    command_scope_capture_only ⟨[("id", ⟨["y"], [], .var "y"⟩)]⟩ 5
      [("z", .int 1)] 0 "id" [.lit (.int 2)] ⟨["y"], [], .var "y"⟩
      [.int 2] (.int 10) rfl (by decide) rfl⟩

end NuCore
